import Mathlib

/-!
Verification of the CryptoTaxes trade-normalization and price-resolution
pipeline (`CryptoTaxes.py`, `gemini_reader.py`).

Modelling conventions:
* Python floats are modelled as exact rationals (`ℚ`).
* Timestamps are epoch milliseconds (`Int`); `get_usd_per_quote` and
  `get_btc_price` receive the already-converted `int(ts.timestamp()*1000)`.
* The Gemini candle HTTP endpoint is a deterministic oracle
  `Pricing.fetch : symbol → timeframe → Option (List Candle)`, where `none`
  models a request that failed every retry (network error or a non-list
  payload) — the code then returns `[]` without caching — and `some cs`
  models a successful JSON list response.
* Python `str.upper` / `str.lower` (applied to ASCII currency codes and
  sides) are modelled by `pyUpper` / `pyLower`, basic-latin case mapping.
* Python `round(x, 10)` is modelled by `round10` (round to nearest with
  ties resolved by `round`; the tie rule never matters below).
-/

namespace CryptoTaxes

/-- Basic-latin uppercase of one character, the model of Python `str.upper`
on the ASCII data this program handles (code points 97–122 map down by 32). -/
def upChar (c : Char) : Char :=
  if 97 ≤ c.toNat ∧ c.toNat ≤ 122 then Char.ofNat (c.toNat - 32) else c

/-- Basic-latin lowercase of one character, the model of Python `str.lower`
(code points 65–90 map up by 32). -/
def lowChar (c : Char) : Char :=
  if 65 ≤ c.toNat ∧ c.toNat ≤ 90 then Char.ofNat (c.toNat + 32) else c

/-- Model of Python `s.upper()`. -/
def pyUpper (s : String) : String := ⟨s.data.map upChar⟩

/-- Model of Python `s.lower()`. -/
def pyLower (s : String) : String := ⟨s.data.map lowChar⟩

theorem char_toNat_ofNat {n : Nat} (h : n < 0xd800) : (Char.ofNat n).toNat = n := by
  have hv : n.isValidChar := Or.inl h
  rw [Char.ofNat, dif_pos hv]
  rfl

theorem upChar_upChar (c : Char) : upChar (upChar c) = upChar c := by
  unfold upChar
  by_cases h : 97 ≤ c.toNat ∧ c.toNat ≤ 122
  · rw [if_pos h]
    have h2 : (Char.ofNat (c.toNat - 32)).toNat = c.toNat - 32 :=
      char_toNat_ofNat (by omega)
    rw [if_neg (by omega)]
  · rw [if_neg h, if_neg h]

theorem pyUpper_pyUpper (s : String) : pyUpper (pyUpper s) = pyUpper s := by
  simp only [pyUpper, List.map_map]
  congr 1
  exact List.map_congr_left (fun c _ => upChar_upChar c)

/-- Model of Python `round(x, 10)`: round to 10 decimal places. -/
def round10 (x : ℚ) : ℚ := (round (x * 10 ^ 10) : ℤ) / 10 ^ 10

theorem round10_zero : round10 0 = 0 := by
  simp [round10]

/-- Rounding to 10 places moves a value by at most half an ulp. -/
theorem abs_round10_sub (x : ℚ) : |round10 x - x| ≤ 1 / (2 * 10 ^ 10) := by
  have h := abs_sub_round (x * 10 ^ 10)
  rw [abs_sub_comm] at h
  have hx : round10 x - x = ((round (x * 10 ^ 10) : ℚ) - x * 10 ^ 10) / 10 ^ 10 := by
    rw [round10]
    ring
  rw [hx, abs_div]
  rw [abs_of_pos (show (0:ℚ) < 10 ^ 10 by norm_num)]
  have h2 : (1:ℚ) / (2 * 10 ^ 10) = (1 / 2) / 10 ^ 10 := by norm_num
  rw [h2]
  gcongr

/-- One OHLCV candle `[timestamp_ms, open, high, low, close, volume]` from the
Gemini v2 candles payload; `_closest_close` reads fields 0 and 4. -/
structure Candle where
  ts : Int
  opn : ℚ
  hi : ℚ
  lo : ℚ
  close : ℚ
  vol : ℚ
deriving DecidableEq

/-- Loop state of `_closest_close`: running `(best, best_dist)` pair, `none`
before the first candle is examined; a candle replaces the best only when its
distance is strictly smaller. -/
def closestLoop (tsMs : Int) : List Candle → Option (Candle × Int) → Option (Candle × Int)
  | [], best => best
  | c :: rest, best =>
    let dist := |c.ts - tsMs|
    match best with
    | none => closestLoop tsMs rest (some (c, dist))
    | some (b, bd) =>
      if dist < bd then closestLoop tsMs rest (some (c, dist))
      else closestLoop tsMs rest (some (b, bd))

/-- Embedding of `_closest_close(candles, ts_ms)`: close of the candle whose
timestamp is nearest to `tsMs`; `0.0` on an empty list. -/
def closest_close (candles : List Candle) (tsMs : Int) : ℚ :=
  if candles.isEmpty then 0
  else
    match closestLoop tsMs candles none with
    | some (b, _) => b.close
    | none => 0

/-- Deterministic model of the Gemini market-data upstream: `fetch` is the
candle endpoint per `(symbol, timeframe)` (`none` = the request failed every
retry or returned a non-list payload), `btcTickerLast` the `last` field of
`/v1/pubticker/btcusd` (`none` = that request failed). -/
structure Pricing where
  fetch : String → String → Option (List Candle)
  btcTickerLast : Option ℚ

/-- Value `_fetch_candles(symbol, tf)` produces for the pricing functions:
the fetched candle list, or `[]` when the upstream request failed. -/
def candleData (pr : Pricing) (symbol tf : String) : List Candle :=
  (pr.fetch (pyLower symbol) tf).getD []

/-- Granularity ladder `("1m","5m","15m","1h","6h","1d")`, finest first. -/
def ladder : List String := ["1m", "5m", "15m", "1h", "6h", "1d"]

/-- Embedding of the `for tf in (...)` scan shared by `get_btc_price` and
`get_usd_per_quote`: first strictly-positive closest close along `tfs`. -/
def ladderScan (pr : Pricing) (symbol : String) (tsMs : Int) : List String → Option ℚ
  | [] => none
  | tf :: tfs =>
    let px := closest_close (candleData pr symbol tf) tsMs
    if 0 < px then some px else ladderScan pr symbol tsMs tfs

/-- Embedding of `get_btc_price(ts)`: BTC/USD via the granularity ladder,
falling back to the live ticker `last` (0.0 when that request fails too). -/
def get_btc_price (pr : Pricing) (tsMs : Int) : ℚ :=
  match ladderScan pr "btcusd" tsMs ladder with
  | some px => px
  | none => pr.btcTickerLast.getD 0

/-- Embedding of `get_usd_per_quote(quote, ts)`: USD per unit of `quote` via
USD/stablecoin short-circuits, direct candles, then the BTC bridge. -/
def get_usd_per_quote (pr : Pricing) (quote : String) (tsMs : Int) : ℚ :=
  let q := pyUpper quote
  if q = "" ∨ q = "USD" then 1
  else if q = "USDT" ∨ q = "USDC" ∨ q = "DAI" then
    match ladderScan pr (pyLower q ++ "usd") tsMs ladder with
    | some px => px
    | none => 1
  else if q = "BTC" then get_btc_price pr tsMs
  else
    match ladderScan pr (pyLower q ++ "usd") tsMs ladder with
    | some px => px
    | none =>
      match ladderScan pr (pyLower q ++ "btc") tsMs ladder with
      | some qbtc => qbtc * get_btc_price pr tsMs
      | none => 0

/-- Raw 7-field order `[t, product, side, cost_in_quote, amount_base,
price_per_coin_in_quote, quote_ccy]` consumed by `fix_orders` (rows with a
different arity are skipped by the code and are outside this typed model). -/
structure RawOrder where
  t : Int
  product : String
  side : String
  cost_in_quote : ℚ
  amount_base : ℚ
  price_in_quote : ℚ
  quote : String
deriving DecidableEq

/-- Normalized USD-denominated 7-field order emitted by `fix_orders`. -/
structure NOrder where
  t : Int
  asset : String
  side : String
  cost_usd : ℚ
  amount : ℚ
  price_usd : ℚ
  currency : String
deriving DecidableEq

/-- Canonicalized side: `(side or "").lower()`. -/
def normSide (o : RawOrder) : String := pyLower o.side

/-- Canonicalized quote currency: `(quote or "USD").upper()`. -/
def normQuote (o : RawOrder) : String :=
  pyUpper (if o.quote = "" then "USD" else o.quote)

/-- Canonicalized product: `(product or "").upper()` with the legacy `BCC`
ticker aliased to `BCH`. -/
def normProduct (o : RawOrder) : String :=
  let p := pyUpper o.product
  if p = "BCC" then "BCH" else p

/-- USD-per-quote value `fix_orders` ends up with in its non-USD branch:
`get_usd_per_quote(order[6], order[0])`, then the falsy/non-positive fallback
to `get_btc_price` for a BTC quote, then the hard `0.0` default. -/
def fixUsdPerQuote (pr : Pricing) (rawQuote canonQuote : String) (t : Int) : ℚ :=
  let up := get_usd_per_quote pr rawQuote t
  if up = 0 ∨ up ≤ 0 then
    let up2 := if canonQuote = "BTC" then get_btc_price pr t else up
    if up2 = 0 ∨ up2 ≤ 0 then 0 else up2
  else up

/-- The `usd_per_quote` value used for one order: `1.0` for a USD quote,
otherwise the fallback chain above (note the code passes the raw, not the
canonicalized, quote string into `get_usd_per_quote`). -/
def orderUsdPerQuote (pr : Pricing) (o : RawOrder) : ℚ :=
  if normQuote o = "USD" then 1 else fixUsdPerQuote pr o.quote (normQuote o) o.t

/-- `cost_usd = float(cost_in_quote) * float(usd_per_quote)`. -/
def orderCostUsd (pr : Pricing) (o : RawOrder) : ℚ :=
  o.cost_in_quote * orderUsdPerQuote pr o

/-- `cost_per_coin_usd` with the divide-by-zero guard on `amount_base`. -/
def orderUnitPrice (pr : Pricing) (o : RawOrder) : ℚ :=
  if o.amount_base = 0 then 0 else orderCostUsd pr o / o.amount_base

/-- Primary USD-denominated leg for the base product. -/
def baseLeg (pr : Pricing) (o : RawOrder) : NOrder :=
  ⟨o.t, normProduct o, normSide o, round10 (orderCostUsd pr o),
   round10 o.amount_base, round10 (orderUnitPrice pr o), "USD"⟩

/-- Balancing leg in the quote asset (built only for a non-USD quote):
`cost_in_quote` units at price `usd_per_quote`, side inverted. -/
def quoteLeg (pr : Pricing) (o : RawOrder) : NOrder :=
  ⟨o.t, normQuote o, if normSide o = "buy" then "sell" else "buy",
   round10 (orderCostUsd pr o), round10 o.cost_in_quote,
   round10 (orderUsdPerQuote pr o), "USD"⟩

/-- Body of the `for order in orders` loop of `fix_orders`, accumulating into
the `(buys_fixed, sells_fixed)` pair. -/
def processOrder (pr : Pricing) (acc : List NOrder × List NOrder) (o : RawOrder) :
    List NOrder × List NOrder :=
  if ¬(normSide o = "buy" ∨ normSide o = "sell") then acc
  else if normSide o = "buy" then
    (acc.1 ++ [baseLeg pr o],
     if normQuote o ≠ "USD" then acc.2 ++ [quoteLeg pr o] else acc.2)
  else
    (if normQuote o ≠ "USD" then acc.1 ++ [quoteLeg pr o] else acc.1,
     acc.2 ++ [baseLeg pr o])

/-- Embedding of `fix_orders(orders)` from `CryptoTaxes.py`. -/
def fix_orders (pr : Pricing) (orders : List RawOrder) : List NOrder × List NOrder :=
  orders.foldl (processOrder pr) ([], [])

/-- Normalized Gemini transaction dict (`gemini_reader.Txn`), restricted to
the fields `_txn_to_order` reads. `price` and `fee` fold the Python
`float(... or 0.0)` defaulting into the value itself; an empty
`fee_currency` models a missing/falsy entry. -/
structure Txn where
  timestamp : Int
  pair : String
  type : String
  amount : ℚ
  price : ℚ
  fee : ℚ
  fee_currency : String
deriving DecidableEq

/-- Base/quote split of an uppercased pair string: split at the first dash if
one is present (`pair.split('-', 1)`), else `pair[:-3], pair[-3:]`. -/
def splitPair (pair : String) : String × String :=
  if pair.contains '-' then
    match pair.splitOn "-" with
    | [] => ("", "")
    | b :: rest => (b, String.intercalate "-" rest)
  else (pair.dropRight 3, pair.takeRight 3)

/-- Embedding of `_txn_to_order(txn)`: convert a Gemini txn into the 7-field
raw-order shape, netting the fee into the cost only when the fee currency
matches the quote currency; `none` for non-trade types. -/
def txn_to_order (txn : Txn) : Option RawOrder :=
  let pair := pyUpper txn.pair
  let bq := splitPair pair
  let side := pyLower txn.type
  if ¬(side = "buy" ∨ side = "sell") then none
  else
    let feeCcy := pyUpper (if txn.fee_currency = "" then bq.2 else txn.fee_currency)
    let gross := |txn.amount| * txn.price
    let feeInQuote := if feeCcy = bq.2 then txn.fee else 0
    let cost := if side = "buy" then gross + feeInQuote else gross - feeInQuote
    some ⟨txn.timestamp, bq.1, side, round10 cost, round10 |txn.amount|,
          round10 txn.price, bq.2⟩

/-- The module-level `_PRICE_CACHE` dict, keyed by `(symbol.lower(), tf)`. -/
abbrev Cache := List ((String × String) × List Candle)

/-- Dict lookup in the price cache. -/
def cacheLookup : Cache → String × String → Option (List Candle)
  | [], _ => none
  | e :: rest, key => if e.1 = key then some e.2 else cacheLookup rest key

/-- Result of one `_fetch_candles` call: the returned candle list, the cache
afterwards, and whether the upstream data source was contacted. -/
structure FetchResult where
  data : List Candle
  cache : Cache
  fetched : Bool
deriving DecidableEq

/-- Embedding of `_fetch_candles(symbol, tf)`: serve from `_PRICE_CACHE` when
the key is present; otherwise contact the upstream oracle, caching the result
only when it is a list (a failed request returns `[]` uncached). -/
def fetch_candles (pr : Pricing) (cache : Cache) (symbol tf : String) : FetchResult :=
  let key := (pyLower symbol, tf)
  match cacheLookup cache key with
  | some v => ⟨v, cache, false⟩
  | none =>
    match pr.fetch (pyLower symbol) tf with
    | some data => ⟨data, (key, data) :: cache, true⟩
    | none => ⟨[], cache, true⟩

/-- Trace of a resolution run: issue the queries `(symbol, tf, tsMs)` in
order against one shared cache, logging for each call its cache key and
whether the upstream source was contacted (the timestamp never affects
fetching, only which cached candle is selected afterwards). -/
def runFetches (pr : Pricing) (cache : Cache) :
    List (String × String × Int) → List ((String × String) × Bool)
  | [] => []
  | (s, tf, _) :: rest =>
    let r := fetch_candles pr cache s tf
    ((pyLower s, tf), r.fetched) :: runFetches pr r.cache rest

/-- Number of upstream fetches recorded for one cache key in a run trace. -/
def fetchCount (log : List ((String × String) × Bool)) (key : String × String) : Nat :=
  log.countP (fun e => decide (e.1 = key) && e.2)

/-- Ladder scan as the specification states it: the first strictly-positive
closest-close along the granularity ladder, finest first. -/
def specLadderFirstPositive (pr : Pricing) (symbol : String) (tsMs : Int) : Option ℚ :=
  (ladder.map (fun tf => closest_close (candleData pr symbol tf) tsMs)).find?
    (fun px => decide (0 < px))

/-- Spec-side restatement of the C2 fallback chain, written from the spec
wording (tiers 1–6) for comparison with `get_usd_per_quote`. -/
def usd_per_unit_spec (pr : Pricing) (currency : String) (tsMs : Int) : ℚ :=
  let q := pyUpper currency
  if q = "" ∨ q = "USD" then 1
  else if q ∈ (["USDT", "USDC", "DAI"] : List String) then
    (specLadderFirstPositive pr (pyLower q ++ "usd") tsMs).getD 1
  else if q = "BTC" then get_btc_price pr tsMs
  else
    match specLadderFirstPositive pr (pyLower q ++ "usd") tsMs with
    | some px => px
    | none =>
      match specLadderFirstPositive pr (pyLower q ++ "btc") tsMs with
      | some qbtc => qbtc * get_btc_price pr tsMs
      | none => 0

/-- Pricing oracle on which every upstream request fails. -/
def prNone : Pricing := ⟨fun _ _ => none, none⟩

theorem ladderScan_eq_find (pr : Pricing) (s : String) (ts : Int) (tfs : List String) :
    ladderScan pr s ts tfs =
      (tfs.map (fun tf => closest_close (candleData pr s tf) ts)).find?
        (fun px => decide (0 < px)) := by
  induction tfs with
  | nil => rfl
  | cons tf tfs ih =>
    simp only [ladderScan, List.map_cons, List.find?]
    by_cases h : 0 < closest_close (candleData pr s tf) ts
    · simp [h]
    · simp [h, ih]

theorem specLadder_eq (pr : Pricing) (s : String) (ts : Int) :
    specLadderFirstPositive pr s ts = ladderScan pr s ts ladder :=
  (ladderScan_eq_find pr s ts ladder).symm

/-- C2: `get_usd_per_quote` follows exactly the ordered fallback chain of the
specification — USD/empty ↦ 1.0 with no lookup, stablecoins ↦ first positive
direct candle else 1.0, BTC ↦ `get_btc_price`, then direct `{currency}USD`,
then the `{currency}BTC` bridge multiplied by `get_btc_price` at the same
timestamp, else 0.0 — always returning the first strictly-positive tier and
never failing (it is a total function of the oracle). -/
theorem get_usd_per_quote_follows_spec_chain (pr : Pricing) (q : String) (ts : Int) :
    get_usd_per_quote pr q ts = usd_per_unit_spec pr q ts := by
  unfold get_usd_per_quote usd_per_unit_spec
  have hmem : (pyUpper q ∈ (["USDT", "USDC", "DAI"] : List String)) ↔
      (pyUpper q = "USDT" ∨ pyUpper q = "USDC" ∨ pyUpper q = "DAI") := by
    simp
  simp only [specLadder_eq, hmem]
  split_ifs
  · rfl
  · cases ladderScan pr (pyLower (pyUpper q) ++ "usd") ts ladder <;> rfl
  · rfl
  · rfl

/-- C9: `get_usd_per_quote` is invariant under letter-casing of its currency
argument, and an empty (missing) currency is priced as USD at 1.0. -/
theorem get_usd_per_quote_case_invariant (pr : Pricing) (q : String) (ts : Int) :
    get_usd_per_quote pr q ts = get_usd_per_quote pr (pyUpper q) ts ∧
    get_usd_per_quote pr "" ts = 1 := by
  constructor
  · simp only [get_usd_per_quote, pyUpper_pyUpper]
  · rfl

theorem closestLoop_spec (tsMs : Int) (cs : List Candle) (b0 : Candle) :
    ∃ r, closestLoop tsMs cs (some (b0, |b0.ts - tsMs|)) = some (r, |r.ts - tsMs|) ∧
      ((r = b0 ∧ ∀ c ∈ cs, |b0.ts - tsMs| ≤ |c.ts - tsMs|) ∨
       (∃ pre post, cs = pre ++ r :: post ∧ |r.ts - tsMs| < |b0.ts - tsMs| ∧
         (∀ c ∈ cs, |r.ts - tsMs| ≤ |c.ts - tsMs|) ∧
         (∀ c ∈ pre, |r.ts - tsMs| < |c.ts - tsMs|))) := by
  induction cs generalizing b0 with
  | nil => exact ⟨b0, rfl, Or.inl ⟨rfl, by simp⟩⟩
  | cons c cs ih =>
    simp only [closestLoop]
    by_cases hc : |c.ts - tsMs| < |b0.ts - tsMs|
    · rw [if_pos hc]
      obtain ⟨r, hr, hcase⟩ := ih c
      refine ⟨r, hr, Or.inr ?_⟩
      rcases hcase with ⟨rfl, hall⟩ | ⟨pre, post, hsplit, hlt, hall, hpre⟩
      · refine ⟨[], cs, by simp, hc, ?_, by simp⟩
        intro x hx
        rcases List.mem_cons.mp hx with rfl | hx
        · exact le_refl _
        · exact hall x hx
      · refine ⟨c :: pre, post, by rw [hsplit, List.cons_append], hlt.trans hc, ?_, ?_⟩
        · intro x hx
          rcases List.mem_cons.mp hx with rfl | hx
          · exact le_of_lt hlt
          · exact hall x hx
        · intro x hx
          rcases List.mem_cons.mp hx with rfl | hx
          · exact hlt
          · exact hpre x hx
    · rw [if_neg hc]
      have hle : |b0.ts - tsMs| ≤ |c.ts - tsMs| := not_lt.mp hc
      obtain ⟨r, hr, hcase⟩ := ih b0
      refine ⟨r, hr, ?_⟩
      rcases hcase with ⟨rfl, hall⟩ | ⟨pre, post, hsplit, hlt, hall, hpre⟩
      · refine Or.inl ⟨rfl, ?_⟩
        intro x hx
        rcases List.mem_cons.mp hx with rfl | hx
        · exact hle
        · exact hall x hx
      · refine Or.inr ⟨c :: pre, post, by rw [hsplit, List.cons_append], hlt, ?_, ?_⟩
        · intro x hx
          rcases List.mem_cons.mp hx with rfl | hx
          · exact le_of_lt (lt_of_lt_of_le hlt hle)
          · exact hall x hx
        · intro x hx
          rcases List.mem_cons.mp hx with rfl | hx
          · exact lt_of_lt_of_le hlt hle
          · exact hpre x hx

/-- C5: `_closest_close` returns `0.0` on an empty candle list, and otherwise
the closing price of a candle whose timestamp distance to the query is
minimal, with every candle strictly before it in the list at strictly larger
distance (ties go to the first-seen candle, as the loop replaces the best
only on a strict `<`). -/
theorem closest_close_spec (candles : List Candle) (tsMs : Int) :
    (candles = [] → closest_close candles tsMs = 0) ∧
    (candles ≠ [] → ∃ best pre post, candles = pre ++ best :: post ∧
      closest_close candles tsMs = best.close ∧
      (∀ c ∈ candles, |best.ts - tsMs| ≤ |c.ts - tsMs|) ∧
      (∀ c ∈ pre, |best.ts - tsMs| < |c.ts - tsMs|)) := by
  constructor
  · intro h
    subst h
    rfl
  · intro h
    match candles, h with
    | c :: cs, _ =>
      obtain ⟨r, hr, hcase⟩ := closestLoop_spec tsMs cs c
      have hcc : closest_close (c :: cs) tsMs = r.close := by
        simp only [closest_close, List.isEmpty_cons, Bool.false_eq_true, if_false,
          closestLoop]
        rw [hr]
      rcases hcase with ⟨rfl, hall⟩ | ⟨pre, post, hsplit, hlt, hall, hpre⟩
      · refine ⟨r, [], cs, by simp, hcc, ?_, by simp⟩
        intro x hx
        rcases List.mem_cons.mp hx with rfl | hx
        · exact le_refl _
        · exact hall x hx
      · refine ⟨r, c :: pre, post, by rw [hsplit, List.cons_append], hcc, ?_, ?_⟩
        · intro x hx
          rcases List.mem_cons.mp hx with rfl | hx
          · exact le_of_lt hlt
          · exact hall x hx
        · intro x hx
          rcases List.mem_cons.mp hx with rfl | hx
          · exact hlt
          · exact hpre x hx

/-- Witness for C5 at a concrete tie: candles at timestamps 0 and 2 queried
at 1 are equidistant and the first-seen close is returned. -/
theorem closest_close_spec_witness :
    (([⟨0, 0, 0, 0, 5, 0⟩, ⟨2, 0, 0, 0, 7, 0⟩] : List Candle) ≠ []) ∧
    (∃ best pre post,
      ([⟨0, 0, 0, 0, 5, 0⟩, ⟨2, 0, 0, 0, 7, 0⟩] : List Candle) = pre ++ best :: post ∧
      closest_close [⟨0, 0, 0, 0, 5, 0⟩, ⟨2, 0, 0, 0, 7, 0⟩] 1 = best.close ∧
      (∀ c ∈ ([⟨0, 0, 0, 0, 5, 0⟩, ⟨2, 0, 0, 0, 7, 0⟩] : List Candle),
        |best.ts - 1| ≤ |c.ts - 1|) ∧
      (∀ c ∈ pre, |best.ts - 1| < |c.ts - 1|)) :=
  ⟨by decide,
   (closest_close_spec [⟨0, 0, 0, 0, 5, 0⟩, ⟨2, 0, 0, 0, 7, 0⟩] 1).2 (by decide)⟩

theorem fix_orders_singleton (pr : Pricing) (o : RawOrder) :
    fix_orders pr [o] = processOrder pr ([], []) o := rfl

/-- C1: a well-formed order whose quote is not USD yields exactly two legs —
the primary leg for the base asset with the original side and the balancing
leg in the quote currency with side inverted, `cost_in_quote` units at price
`usd_per_quote` (all numeric fields rounded to 10 places) — routed to the
buys/sells outputs by their respective sides. -/
theorem fix_orders_nonusd_two_legs (pr : Pricing) (o : RawOrder)
    (hs : normSide o = "buy" ∨ normSide o = "sell")
    (hq : normQuote o ≠ "USD") :
    (normSide o = "buy" → fix_orders pr [o] = ([baseLeg pr o], [quoteLeg pr o])) ∧
    (normSide o = "sell" → fix_orders pr [o] = ([quoteLeg pr o], [baseLeg pr o])) ∧
    (baseLeg pr o).asset = normProduct o ∧
    (baseLeg pr o).side = normSide o ∧
    (quoteLeg pr o).asset = normQuote o ∧
    (quoteLeg pr o).side = (if normSide o = "buy" then "sell" else "buy") ∧
    (quoteLeg pr o).amount = round10 o.cost_in_quote ∧
    (quoteLeg pr o).price_usd = round10 (orderUsdPerQuote pr o) := by
  refine ⟨?_, ?_, rfl, rfl, rfl, rfl, rfl, rfl⟩
  · intro hb
    simp [fix_orders, processOrder, hb, hq]
  · intro hsell
    have hb : ¬(normSide o = "buy") := by
      rw [hsell]
      decide
    simp [fix_orders, processOrder, hsell, hb, hq]

/-- Witness for C1: an uppercase-sided ETH/BTC buy splits into an ETH buy leg
and a balancing BTC sell leg. -/
theorem fix_orders_nonusd_two_legs_witness :
    (normSide ⟨0, "eth", "Buy", 3, 2, 3/2, "btc"⟩ = "buy" ∨
     normSide ⟨0, "eth", "Buy", 3, 2, 3/2, "btc"⟩ = "sell") ∧
    normQuote ⟨0, "eth", "Buy", 3, 2, 3/2, "btc"⟩ ≠ "USD" ∧
    ((normSide ⟨0, "eth", "Buy", 3, 2, 3/2, "btc"⟩ = "buy" →
      fix_orders prNone [⟨0, "eth", "Buy", 3, 2, 3/2, "btc"⟩] =
        ([baseLeg prNone ⟨0, "eth", "Buy", 3, 2, 3/2, "btc"⟩],
         [quoteLeg prNone ⟨0, "eth", "Buy", 3, 2, 3/2, "btc"⟩])) ∧
     (normSide ⟨0, "eth", "Buy", 3, 2, 3/2, "btc"⟩ = "sell" →
      fix_orders prNone [⟨0, "eth", "Buy", 3, 2, 3/2, "btc"⟩] =
        ([quoteLeg prNone ⟨0, "eth", "Buy", 3, 2, 3/2, "btc"⟩],
         [baseLeg prNone ⟨0, "eth", "Buy", 3, 2, 3/2, "btc"⟩])) ∧
     (baseLeg prNone ⟨0, "eth", "Buy", 3, 2, 3/2, "btc"⟩).asset =
       normProduct ⟨0, "eth", "Buy", 3, 2, 3/2, "btc"⟩ ∧
     (baseLeg prNone ⟨0, "eth", "Buy", 3, 2, 3/2, "btc"⟩).side =
       normSide ⟨0, "eth", "Buy", 3, 2, 3/2, "btc"⟩ ∧
     (quoteLeg prNone ⟨0, "eth", "Buy", 3, 2, 3/2, "btc"⟩).asset =
       normQuote ⟨0, "eth", "Buy", 3, 2, 3/2, "btc"⟩ ∧
     (quoteLeg prNone ⟨0, "eth", "Buy", 3, 2, 3/2, "btc"⟩).side =
       (if normSide ⟨0, "eth", "Buy", 3, 2, 3/2, "btc"⟩ = "buy" then "sell" else "buy") ∧
     (quoteLeg prNone ⟨0, "eth", "Buy", 3, 2, 3/2, "btc"⟩).amount = round10 3 ∧
     (quoteLeg prNone ⟨0, "eth", "Buy", 3, 2, 3/2, "btc"⟩).price_usd =
       round10 (orderUsdPerQuote prNone ⟨0, "eth", "Buy", 3, 2, 3/2, "btc"⟩)) :=
  ⟨by decide, by decide,
   fix_orders_nonusd_two_legs prNone ⟨0, "eth", "Buy", 3, 2, 3/2, "btc"⟩
     (by decide) (by decide)⟩

/-- C4: a well-formed order whose quote canonicalizes to USD yields exactly
one leg and its cost is `cost_in_quote * 1.0` rounded to 10 places. -/
theorem fix_orders_usd_single_leg (pr : Pricing) (o : RawOrder)
    (hs : normSide o = "buy" ∨ normSide o = "sell")
    (hq : normQuote o = "USD") :
    (normSide o = "buy" → fix_orders pr [o] = ([baseLeg pr o], [])) ∧
    (normSide o = "sell" → fix_orders pr [o] = ([], [baseLeg pr o])) ∧
    orderUsdPerQuote pr o = 1 ∧
    (baseLeg pr o).cost_usd = round10 (o.cost_in_quote * 1) := by
  have hup : orderUsdPerQuote pr o = 1 := by
    simp [orderUsdPerQuote, hq]
  refine ⟨?_, ?_, hup, ?_⟩
  · intro hb
    simp [fix_orders, processOrder, hb, hq]
  · intro hsell
    have hb : ¬(normSide o = "buy") := by
      rw [hsell]
      decide
    simp [fix_orders, processOrder, hsell, hb, hq]
  · simp [baseLeg, orderCostUsd, hup]

/-- Witness for C4: a BTC buy quoted with an empty quote currency defaults to
USD and yields a single leg costing `round10 (100 * 1)`. -/
theorem fix_orders_usd_single_leg_witness :
    (normSide ⟨0, "btc", "buy", 100, 2, 50, ""⟩ = "buy" ∨
     normSide ⟨0, "btc", "buy", 100, 2, 50, ""⟩ = "sell") ∧
    normQuote ⟨0, "btc", "buy", 100, 2, 50, ""⟩ = "USD" ∧
    ((normSide ⟨0, "btc", "buy", 100, 2, 50, ""⟩ = "buy" →
      fix_orders prNone [⟨0, "btc", "buy", 100, 2, 50, ""⟩] =
        ([baseLeg prNone ⟨0, "btc", "buy", 100, 2, 50, ""⟩], [])) ∧
     (normSide ⟨0, "btc", "buy", 100, 2, 50, ""⟩ = "sell" →
      fix_orders prNone [⟨0, "btc", "buy", 100, 2, 50, ""⟩] =
        ([], [baseLeg prNone ⟨0, "btc", "buy", 100, 2, 50, ""⟩])) ∧
     orderUsdPerQuote prNone ⟨0, "btc", "buy", 100, 2, 50, ""⟩ = 1 ∧
     (baseLeg prNone ⟨0, "btc", "buy", 100, 2, 50, ""⟩).cost_usd = round10 (100 * 1)) :=
  ⟨by decide, by decide,
   fix_orders_usd_single_leg prNone ⟨0, "btc", "buy", 100, 2, 50, ""⟩
     (by decide) (by decide)⟩

/-- C6: a zero base amount never divides — the primary leg's unit price is
defined as 0.0 — and the order is still processed in full, its primary leg
landing in the output list of its side. -/
theorem fix_orders_zero_amount_guard (pr : Pricing) (o : RawOrder)
    (hs : normSide o = "buy" ∨ normSide o = "sell")
    (hz : o.amount_base = 0) :
    (baseLeg pr o).price_usd = 0 ∧
    (normSide o = "buy" → baseLeg pr o ∈ (fix_orders pr [o]).1) ∧
    (normSide o = "sell" → baseLeg pr o ∈ (fix_orders pr [o]).2) := by
  refine ⟨?_, ?_, ?_⟩
  · simp [baseLeg, orderUnitPrice, hz, round10_zero]
  · intro hb
    simp [fix_orders, processOrder, hb]
  · intro hsell
    have hb : ¬(normSide o = "buy") := by
      rw [hsell]
      decide
    simp [fix_orders, processOrder, hsell, hb]

/-- Witness for C6: a zero-amount non-USD sell still emits a primary leg, at
unit price 0. -/
theorem fix_orders_zero_amount_guard_witness :
    (normSide ⟨0, "ltc", "sell", 7, 0, 0, "btc"⟩ = "buy" ∨
     normSide ⟨0, "ltc", "sell", 7, 0, 0, "btc"⟩ = "sell") ∧
    (⟨0, "ltc", "sell", 7, 0, 0, "btc"⟩ : RawOrder).amount_base = 0 ∧
    ((baseLeg prNone ⟨0, "ltc", "sell", 7, 0, 0, "btc"⟩).price_usd = 0 ∧
     (normSide ⟨0, "ltc", "sell", 7, 0, 0, "btc"⟩ = "buy" →
       baseLeg prNone ⟨0, "ltc", "sell", 7, 0, 0, "btc"⟩ ∈
         (fix_orders prNone [⟨0, "ltc", "sell", 7, 0, 0, "btc"⟩]).1) ∧
     (normSide ⟨0, "ltc", "sell", 7, 0, 0, "btc"⟩ = "sell" →
       baseLeg prNone ⟨0, "ltc", "sell", 7, 0, 0, "btc"⟩ ∈
         (fix_orders prNone [⟨0, "ltc", "sell", 7, 0, 0, "btc"⟩]).2)) :=
  ⟨by decide, by decide,
   fix_orders_zero_amount_guard prNone ⟨0, "ltc", "sell", 7, 0, 0, "btc"⟩
     (by decide) (by decide)⟩

/-- C10: the BCC→BCH legacy-ticker alias applies to the base product only —
a base of `BCC` is renamed to `BCH` on the primary leg, while a quote of
`BCC` stays `BCC` on the balancing leg. -/
theorem fix_orders_bcc_alias_base_only (pr : Pricing) (o : RawOrder)
    (hs : normSide o = "buy" ∨ normSide o = "sell") :
    (pyUpper o.product = "BCC" → (baseLeg pr o).asset = "BCH") ∧
    (normQuote o = "BCC" →
      (quoteLeg pr o).asset = "BCC" ∧
      (normSide o = "buy" → (fix_orders pr [o]).2 = [quoteLeg pr o]) ∧
      (normSide o = "sell" → (fix_orders pr [o]).1 = [quoteLeg pr o])) := by
  constructor
  · intro hp
    simp [baseLeg, normProduct, hp]
  · intro hq
    have hq' : normQuote o ≠ "USD" := by
      rw [hq]
      decide
    refine ⟨by simp [quoteLeg, hq], ?_, ?_⟩
    · intro hb
      simp [fix_orders, processOrder, hb, hq']
    · intro hsell
      have hb : ¬(normSide o = "buy") := by
        rw [hsell]
        decide
      simp [fix_orders, processOrder, hsell, hb, hq']

/-- Witness for C10: a `bcc`-quoted buy of product `bcc` gets its base leg
renamed to BCH while the balancing leg keeps asset BCC. -/
theorem fix_orders_bcc_alias_base_only_witness :
    (normSide ⟨0, "bcc", "buy", 4, 1, 4, "bcc"⟩ = "buy" ∨
     normSide ⟨0, "bcc", "buy", 4, 1, 4, "bcc"⟩ = "sell") ∧
    ((pyUpper (⟨0, "bcc", "buy", 4, 1, 4, "bcc"⟩ : RawOrder).product = "BCC" →
      (baseLeg prNone ⟨0, "bcc", "buy", 4, 1, 4, "bcc"⟩).asset = "BCH") ∧
     (normQuote ⟨0, "bcc", "buy", 4, 1, 4, "bcc"⟩ = "BCC" →
      (quoteLeg prNone ⟨0, "bcc", "buy", 4, 1, 4, "bcc"⟩).asset = "BCC" ∧
      (normSide ⟨0, "bcc", "buy", 4, 1, 4, "bcc"⟩ = "buy" →
        (fix_orders prNone [⟨0, "bcc", "buy", 4, 1, 4, "bcc"⟩]).2 =
          [quoteLeg prNone ⟨0, "bcc", "buy", 4, 1, 4, "bcc"⟩]) ∧
      (normSide ⟨0, "bcc", "buy", 4, 1, 4, "bcc"⟩ = "sell" →
        (fix_orders prNone [⟨0, "bcc", "buy", 4, 1, 4, "bcc"⟩]).1 =
          [quoteLeg prNone ⟨0, "bcc", "buy", 4, 1, 4, "bcc"⟩]))) :=
  ⟨by decide,
   fix_orders_bcc_alias_base_only prNone ⟨0, "bcc", "buy", 4, 1, 4, "bcc"⟩ (by decide)⟩

/-- Rounding each factor and the product to 10 places keeps the product
identity up to an error proportional to the rounded magnitudes. -/
theorem round10_mul_close (x y : ℚ) :
    |round10 (x * y) - round10 x * round10 y| ≤
      (1 + |round10 x| + |round10 y|) / 10 ^ 10 := by
  have hx := abs_round10_sub x
  have hy := abs_round10_sub y
  have hxy := abs_round10_sub (x * y)
  set X := round10 x with hX
  set Y := round10 y with hY
  set C := round10 (x * y) with hC
  have h1 : |C - X * Y| ≤ |C - x * y| + |x * y - X * Y| := by
    have he : C - X * Y = (C - x * y) + (x * y - X * Y) := by ring
    rw [he]
    exact abs_add _ _
  have h2 : |x * y - X * Y| ≤ |y| * |X - x| + |X| * |Y - y| := by
    have he : x * y - X * Y = -(y * (X - x)) - X * (Y - y) := by ring
    calc |x * y - X * Y| = |(-(y * (X - x))) - X * (Y - y)| := by rw [he]
      _ ≤ |(-(y * (X - x)))| + |X * (Y - y)| := abs_sub _ _
      _ = |y| * |X - x| + |X| * |Y - y| := by rw [abs_neg, abs_mul, abs_mul]
  have hyb : |y| ≤ |Y| + 1 / (2 * 10 ^ 10) := by
    have he : y = Y - (Y - y) := by ring
    calc |y| = |Y - (Y - y)| := by rw [← he]
      _ ≤ |Y| + |Y - y| := abs_sub _ _
      _ ≤ |Y| + 1 / (2 * 10 ^ 10) := by linarith [hy]
  have hp1 : |y| * |X - x| ≤ (|Y| + 1 / (2 * 10 ^ 10)) * (1 / (2 * 10 ^ 10)) :=
    mul_le_mul hyb hx (abs_nonneg _) (by positivity)
  have hp2 : |X| * |Y - y| ≤ |X| * (1 / (2 * 10 ^ 10)) :=
    mul_le_mul_of_nonneg_left hy (abs_nonneg _)
  nlinarith [abs_nonneg X, abs_nonneg Y]

/-- Counterexample to C3 as stated: the claimed tolerance fails on emitted
legs. A zero-amount 100-cost USD-quoted buy emits a leg with
`cost = 100, amount = 0, price = 0` (error 100), and a buy of `10^11` units
costing 1 USD emits `cost = 1, amount = 10^11, price = 0` (the true unit
price `10^-11` rounds to 0 at 10 places, error 1), both far beyond the
10-decimal-place tolerance. -/
theorem fix_orders_cost_mul_counterexample :
    (fix_orders prNone [⟨0, "BTC", "buy", 100, 0, 0, "USD"⟩]).1 =
      [⟨0, "BTC", "buy", 100, 0, 0, "USD"⟩] ∧
    ¬(|(100 : ℚ) - 0 * 0| ≤ 1 / 10 ^ 10) ∧
    (fix_orders prNone [⟨0, "BTC", "buy", 1, 10 ^ 11, 0, "USD"⟩]).1 =
      [⟨0, "BTC", "buy", 1, 10 ^ 11, 0, "USD"⟩] ∧
    ¬(|(1 : ℚ) - 10 ^ 11 * 0| ≤ 1 / 10 ^ 10) := by
  refine ⟨?_, by norm_num, ?_, by norm_num⟩
  · have husd : orderUsdPerQuote prNone ⟨0, "BTC", "buy", 100, 0, 0, "USD"⟩ = 1 := by
      rw [orderUsdPerQuote,
        if_pos (show normQuote ⟨0, "BTC", "buy", 100, 0, 0, "USD"⟩ = "USD" from rfl)]
    have hcost : orderCostUsd prNone ⟨0, "BTC", "buy", 100, 0, 0, "USD"⟩ = 100 := by
      rw [orderCostUsd, husd]
      norm_num
    have hunit : orderUnitPrice prNone ⟨0, "BTC", "buy", 100, 0, 0, "USD"⟩ = 0 := by
      rw [orderUnitPrice,
        if_pos (show (⟨0, "BTC", "buy", 100, 0, 0, "USD"⟩ : RawOrder).amount_base = 0 from rfl)]
    have hbase : baseLeg prNone ⟨0, "BTC", "buy", 100, 0, 0, "USD"⟩ =
        ⟨0, "BTC", "buy", 100, 0, 0, "USD"⟩ := by
      rw [baseLeg, hcost, hunit]
      norm_num [round10, round_eq]
      exact ⟨rfl, rfl⟩
    simp [fix_orders_singleton, processOrder, hbase,
      show normSide ⟨0, "BTC", "buy", 100, 0, 0, "USD"⟩ = "buy" from rfl,
      show normQuote ⟨0, "BTC", "buy", 100, 0, 0, "USD"⟩ = "USD" from rfl]
  · have husd : orderUsdPerQuote prNone ⟨0, "BTC", "buy", 1, 10 ^ 11, 0, "USD"⟩ = 1 := by
      rw [orderUsdPerQuote,
        if_pos (show normQuote ⟨0, "BTC", "buy", 1, 10 ^ 11, 0, "USD"⟩ = "USD" from rfl)]
    have hcost : orderCostUsd prNone ⟨0, "BTC", "buy", 1, 10 ^ 11, 0, "USD"⟩ = 1 := by
      rw [orderCostUsd, husd]
      norm_num
    have hunit : orderUnitPrice prNone ⟨0, "BTC", "buy", 1, 10 ^ 11, 0, "USD"⟩ =
        1 / 10 ^ 11 := by
      rw [orderUnitPrice, if_neg (by norm_num), hcost]
    have hbase : baseLeg prNone ⟨0, "BTC", "buy", 1, 10 ^ 11, 0, "USD"⟩ =
        ⟨0, "BTC", "buy", 1, 10 ^ 11, 0, "USD"⟩ := by
      rw [baseLeg, hcost, hunit]
      norm_num [round10, round_eq]
      exact ⟨rfl, rfl⟩
    simp [fix_orders_singleton, processOrder, hbase,
      show normSide ⟨0, "BTC", "buy", 1, 10 ^ 11, 0, "USD"⟩ = "buy" from rfl,
      show normQuote ⟨0, "BTC", "buy", 1, 10 ^ 11, 0, "USD"⟩ = "USD" from rfl]

/-- C3 amended: every emitted leg has currency "USD"; the product identity
`cost ≈ amount × price` holds up to the 10-decimal rounding error scaled by
the rounded magnitudes — for the balancing leg always, and for the primary
leg whenever the raw base amount is nonzero (a zero base amount forces unit
price 0.0 while the cost may be nonzero). -/
theorem fix_orders_currency_cost_amended (pr : Pricing) (o : RawOrder)
    (hs : normSide o = "buy" ∨ normSide o = "sell") :
    (∀ l, (l ∈ (fix_orders pr [o]).1 ∨ l ∈ (fix_orders pr [o]).2) →
      l.currency = "USD") ∧
    (o.amount_base ≠ 0 →
      |(baseLeg pr o).cost_usd - (baseLeg pr o).amount * (baseLeg pr o).price_usd| ≤
        (1 + |(baseLeg pr o).amount| + |(baseLeg pr o).price_usd|) / 10 ^ 10) ∧
    |(quoteLeg pr o).cost_usd - (quoteLeg pr o).amount * (quoteLeg pr o).price_usd| ≤
      (1 + |(quoteLeg pr o).amount| + |(quoteLeg pr o).price_usd|) / 10 ^ 10 := by
  refine ⟨?_, ?_, ?_⟩
  · intro l hl
    have hmem : l = baseLeg pr o ∨ l = quoteLeg pr o := by
      rcases hs with hb | hsell
      · by_cases hq : normQuote o = "USD" <;>
          simp [fix_orders, processOrder, hb, hq] at hl <;> tauto
      · have hb : ¬(normSide o = "buy") := by
          rw [hsell]
          decide
        by_cases hq : normQuote o = "USD" <;>
          simp [fix_orders, processOrder, hsell, hb, hq] at hl <;> tauto
    rcases hmem with rfl | rfl <;> rfl
  · intro hz
    have hkey : o.amount_base * (orderCostUsd pr o / o.amount_base) =
        orderCostUsd pr o := by
      field_simp
    have h := round10_mul_close o.amount_base (orderCostUsd pr o / o.amount_base)
    rw [hkey] at h
    simpa [baseLeg, orderUnitPrice, hz] using h
  · exact round10_mul_close o.cost_in_quote (orderUsdPerQuote pr o)

/-- Witness for the amended C3 at a concrete non-USD sell. -/
theorem fix_orders_currency_cost_amended_witness :
    (normSide ⟨0, "eth", "sell", 6, 3, 2, "btc"⟩ = "buy" ∨
     normSide ⟨0, "eth", "sell", 6, 3, 2, "btc"⟩ = "sell") ∧
    ((∀ l, (l ∈ (fix_orders prNone [⟨0, "eth", "sell", 6, 3, 2, "btc"⟩]).1 ∨
            l ∈ (fix_orders prNone [⟨0, "eth", "sell", 6, 3, 2, "btc"⟩]).2) →
       l.currency = "USD") ∧
     ((⟨0, "eth", "sell", 6, 3, 2, "btc"⟩ : RawOrder).amount_base ≠ 0 →
       |(baseLeg prNone ⟨0, "eth", "sell", 6, 3, 2, "btc"⟩).cost_usd -
         (baseLeg prNone ⟨0, "eth", "sell", 6, 3, 2, "btc"⟩).amount *
           (baseLeg prNone ⟨0, "eth", "sell", 6, 3, 2, "btc"⟩).price_usd| ≤
         (1 + |(baseLeg prNone ⟨0, "eth", "sell", 6, 3, 2, "btc"⟩).amount| +
            |(baseLeg prNone ⟨0, "eth", "sell", 6, 3, 2, "btc"⟩).price_usd|) / 10 ^ 10) ∧
     |(quoteLeg prNone ⟨0, "eth", "sell", 6, 3, 2, "btc"⟩).cost_usd -
       (quoteLeg prNone ⟨0, "eth", "sell", 6, 3, 2, "btc"⟩).amount *
         (quoteLeg prNone ⟨0, "eth", "sell", 6, 3, 2, "btc"⟩).price_usd| ≤
       (1 + |(quoteLeg prNone ⟨0, "eth", "sell", 6, 3, 2, "btc"⟩).amount| +
          |(quoteLeg prNone ⟨0, "eth", "sell", 6, 3, 2, "btc"⟩).price_usd|) / 10 ^ 10) :=
  ⟨by decide,
   fix_orders_currency_cost_amended prNone ⟨0, "eth", "sell", 6, 3, 2, "btc"⟩ (by decide)⟩

theorem cacheLookup_insert (cache : Cache) (k key : String × String)
    (d : List Candle) :
    cacheLookup ((k, d) :: cache) key =
      if k = key then some d else cacheLookup cache key := rfl

theorem runFetches_no_fetch_of_cached (pr : Pricing) (key : String × String)
    (v : List Candle) :
    ∀ (qs : List (String × String × Int)) (cache : Cache),
      cacheLookup cache key = some v →
      fetchCount (runFetches pr cache qs) key = 0 := by
  intro qs
  induction qs with
  | nil => intro cache _; rfl
  | cons q rest ih =>
    intro cache hc
    obtain ⟨s, tf, ts⟩ := q
    simp only [runFetches, fetchCount, List.countP_cons] at *
    by_cases hkey : (pyLower s, tf) = key
    · subst hkey
      simp only [fetch_candles, hc]
      have h0 := ih cache hc
      simp only [fetchCount] at h0
      simp [h0]
    · rcases hlk : cacheLookup cache (pyLower s, tf) with _ | w
      · rcases hf : pr.fetch (pyLower s) tf with _ | data
        · simp only [fetch_candles, hlk, hf]
          have h0 := ih cache hc
          simp only [fetchCount] at h0
          simp [hkey, h0]
        · simp only [fetch_candles, hlk, hf]
          have hc2 : cacheLookup (((pyLower s, tf), data) :: cache) key = some v := by
            rw [cacheLookup_insert, if_neg hkey]
            exact hc
          have h0 := ih (((pyLower s, tf), data) :: cache) hc2
          simp only [fetchCount] at h0
          simp [hkey, h0]
      · simp only [fetch_candles, hlk]
        have h0 := ih cache hc
        simp only [fetchCount] at h0
        simp [h0]

theorem fetch_at_most_once_aux (pr : Pricing) (key : String × String)
    (d : List Candle) (h : pr.fetch key.1 key.2 = some d) :
    ∀ (qs : List (String × String × Int)) (cache : Cache),
      fetchCount (runFetches pr cache qs) key ≤ 1 := by
  intro qs
  induction qs with
  | nil => intro cache; exact Nat.zero_le 1
  | cons q rest ih =>
    intro cache
    obtain ⟨s, tf, ts⟩ := q
    simp only [runFetches, fetchCount, List.countP_cons]
    rcases hlk : cacheLookup cache (pyLower s, tf) with _ | w
    · rcases hf : pr.fetch (pyLower s) tf with _ | data
      · by_cases hkey : (pyLower s, tf) = key
        · exfalso
          subst hkey
          exact Option.noConfusion (hf.symm.trans h)
        · simp only [fetch_candles, hlk, hf]
          have h1 := ih cache
          simp only [fetchCount] at h1
          simpa [hkey] using h1
      · by_cases hkey : (pyLower s, tf) = key
        · subst hkey
          simp only [fetch_candles, hlk, hf]
          have h0 := runFetches_no_fetch_of_cached pr (pyLower s, tf) data rest
            (((pyLower s, tf), data) :: cache)
            (by rw [cacheLookup_insert, if_pos rfl])
          simp only [fetchCount] at h0
          simp [h0]
        · simp only [fetch_candles, hlk, hf]
          have h1 := ih (((pyLower s, tf), data) :: cache)
          simp only [fetchCount] at h1
          simpa [hkey] using h1
    · simp only [fetch_candles, hlk]
      have h1 := ih cache
      simp only [fetchCount] at h1
      simpa using h1

/-- Counterexample to C7 as stated: when the upstream request for a key
fails, `_fetch_candles` caches nothing, so a second query for the same key
(at a different timestamp) contacts the upstream source again — two fetches
for one key in one run. -/
theorem fetch_candles_refetch_counterexample :
    fetchCount
      (runFetches prNone [] [("btcusd", "1m", 1000), ("btcusd", "1m", 2000)])
      ("btcusd", "1m") = 2 := by decide

/-- C7 amended: a `(pair, granularity)` key whose upstream request succeeds
(returns a candle list) is fetched at most once per run — the success is
cached and every later call for that key is served from `_PRICE_CACHE`; only
failed requests (which cache nothing) can be re-fetched. -/
theorem fetch_candles_at_most_one_successful_fetch (pr : Pricing)
    (qs : List (String × String × Int)) (key : String × String)
    (d : List Candle) (h : pr.fetch key.1 key.2 = some d) :
    fetchCount (runFetches pr [] qs) key ≤ 1 :=
  fetch_at_most_once_aux pr key d h qs []

/-- Witness for the amended C7: with a successful (empty-list) upstream, two
queries against one key trigger at most one fetch. -/
theorem fetch_candles_at_most_one_successful_fetch_witness :
    (Pricing.mk (fun _ _ => some []) none).fetch "btcusd" "1m" = some [] ∧
    fetchCount
      (runFetches (Pricing.mk (fun _ _ => some []) none) []
        [("btcusd", "1m", 1000), ("btcusd", "1m", 2000)])
      ("btcusd", "1m") ≤ 1 :=
  ⟨rfl,
   fetch_candles_at_most_one_successful_fetch (Pricing.mk (fun _ _ => some []) none)
     [("btcusd", "1m", 1000), ("btcusd", "1m", 2000)] ("btcusd", "1m") [] rfl⟩

/-- C8: `_txn_to_order` nets the fee into the cost only when the fee
currency equals the quote currency — `gross + fee` for a buy, `gross − fee`
for a sell, with `gross = |amount| × price` — and ignores the fee entirely
(cost = gross) when the fee is denominated in anything else. -/
theorem txn_to_order_fee_netting (txn : Txn)
    (hs : pyLower txn.type = "buy" ∨ pyLower txn.type = "sell") :
    ∃ o : RawOrder, txn_to_order txn = some o ∧
      o.side = pyLower txn.type ∧
      o.product = (splitPair (pyUpper txn.pair)).1 ∧
      o.quote = (splitPair (pyUpper txn.pair)).2 ∧
      o.amount_base = round10 |txn.amount| ∧
      (pyUpper (if txn.fee_currency = "" then (splitPair (pyUpper txn.pair)).2
          else txn.fee_currency) = (splitPair (pyUpper txn.pair)).2 →
        o.cost_in_quote = round10 (if pyLower txn.type = "buy"
          then |txn.amount| * txn.price + txn.fee
          else |txn.amount| * txn.price - txn.fee)) ∧
      (pyUpper (if txn.fee_currency = "" then (splitPair (pyUpper txn.pair)).2
          else txn.fee_currency) ≠ (splitPair (pyUpper txn.pair)).2 →
        o.cost_in_quote = round10 (|txn.amount| * txn.price)) := by
  refine ⟨⟨txn.timestamp, (splitPair (pyUpper txn.pair)).1, pyLower txn.type,
      round10 (if pyLower txn.type = "buy"
        then |txn.amount| * txn.price +
          (if pyUpper (if txn.fee_currency = "" then (splitPair (pyUpper txn.pair)).2
              else txn.fee_currency) = (splitPair (pyUpper txn.pair)).2
            then txn.fee else 0)
        else |txn.amount| * txn.price -
          (if pyUpper (if txn.fee_currency = "" then (splitPair (pyUpper txn.pair)).2
              else txn.fee_currency) = (splitPair (pyUpper txn.pair)).2
            then txn.fee else 0)),
      round10 |txn.amount|, round10 txn.price, (splitPair (pyUpper txn.pair)).2⟩,
    ?_, rfl, rfl, rfl, rfl, ?_, ?_⟩
  · simp only [txn_to_order]
    rw [if_neg (not_not_intro hs)]
  · intro hfq
    simp only [if_pos hfq]
  · intro hfq
    simp only [if_neg hfq]
    rcases hs with hb | hsell
    · simp [hb]
    · have hb : ¬(pyLower txn.type = "buy") := by
        rw [hsell]
        decide
      simp [hb]

/-- Witness for C8: an ETH-denominated fee on an ETH/USD buy is ignored —
the cost equals the gross `2 × 100`. -/
theorem txn_to_order_fee_netting_witness :
    (pyLower (⟨0, "ETH-USD", "Buy", 2, 100, 1, "ETH"⟩ : Txn).type = "buy" ∨
     pyLower (⟨0, "ETH-USD", "Buy", 2, 100, 1, "ETH"⟩ : Txn).type = "sell") ∧
    (∃ o : RawOrder, txn_to_order ⟨0, "ETH-USD", "Buy", 2, 100, 1, "ETH"⟩ = some o ∧
      o.side = pyLower (⟨0, "ETH-USD", "Buy", 2, 100, 1, "ETH"⟩ : Txn).type ∧
      o.product = (splitPair (pyUpper "ETH-USD")).1 ∧
      o.quote = (splitPair (pyUpper "ETH-USD")).2 ∧
      o.amount_base = round10 |(2 : ℚ)| ∧
      (pyUpper (if ("ETH" : String) = "" then (splitPair (pyUpper "ETH-USD")).2
          else "ETH") = (splitPair (pyUpper "ETH-USD")).2 →
        o.cost_in_quote = round10 (if pyLower (⟨0, "ETH-USD", "Buy", 2, 100, 1, "ETH"⟩ : Txn).type = "buy"
          then |(2 : ℚ)| * 100 + 1
          else |(2 : ℚ)| * 100 - 1)) ∧
      (pyUpper (if ("ETH" : String) = "" then (splitPair (pyUpper "ETH-USD")).2
          else "ETH") ≠ (splitPair (pyUpper "ETH-USD")).2 →
        o.cost_in_quote = round10 (|(2 : ℚ)| * 100))) :=
  ⟨by decide, txn_to_order_fee_netting ⟨0, "ETH-USD", "Buy", 2, 100, 1, "ETH"⟩ (by decide)⟩

end CryptoTaxes
